import Mathlib

/-!
Verification development for the `tcurl` repository (a terminal tool managing
named HTTP request definitions stored as YAML files).

The Python sources are shallowly embedded: Python strings are modelled as
Lean `String`s, or as their character sequences (`List Char`) where the code
slices or scans character-by-character (Python strings are sequences of code
points, unlike Lean's byte-indexed `String`).  File-system state is passed
explicitly: a requests directory is a list of file names, and the outcome of
`yaml.safe_load` on a file is an explicit `Option Yaml` (with `none`
modelling a raised `yaml.YAMLError`).  Fallible Python code that can raise
is embedded in `Except`.
-/

namespace Tcurl

/-- Values produced by `yaml.safe_load`: YAML null, booleans, integers,
strings, sequences and mappings.  Mapping keys are modelled as strings (the
request files only use string keys); floating-point scalars are not modelled
(no claim depends on them). -/
inductive Yaml where
  | null : Yaml
  | bool (b : Bool) : Yaml
  | int (n : Int) : Yaml
  | str (s : String) : Yaml
  | list (items : List Yaml) : Yaml
  | dict (entries : List (String × Yaml)) : Yaml

/-- Python truthiness of a YAML-derived value: `None`, `False`, `0`, `""`,
`[]` and `\x7b\x7d` are falsy, everything else truthy. -/
def pyTruthy : Yaml → Bool
  | .null => false
  | .bool b => b
  | .int n => n != 0
  | .str s => s != ""
  | .list items => !items.isEmpty
  | .dict entries => !entries.isEmpty

mutual

/-- Python `repr` of a YAML-derived value (`str` on nested containers uses
`repr` of the elements).  Only its value on scalars matters to the theorems
below; the container cases follow Python's `repr` shape. -/
def pyRepr : Yaml → String
  | .null => "None"
  | .bool true => "True"
  | .bool false => "False"
  | .int n => toString n
  | .str s => "\x27" ++ s ++ "\x27"
  | .list items => "[" ++ String.intercalate ", " (pyReprList items) ++ "]"
  | .dict entries => "\x7b" ++ String.intercalate ", " (pyReprDict entries) ++ "\x7d"

/-- Helper of `pyRepr` mapping over list elements. -/
def pyReprList : List Yaml → List String
  | [] => []
  | x :: xs => pyRepr x :: pyReprList xs

/-- Helper of `pyRepr` mapping over mapping entries. -/
def pyReprDict : List (String × Yaml) → List String
  | [] => []
  | (k, v) :: xs => ("\x27" ++ k ++ "\x27: " ++ pyRepr v) :: pyReprDict xs

end

/-- Python `str()` of a YAML-derived value: the identity on strings,
`repr`-like otherwise (`str(None) = "None"`, `str(0) = "0"`, ...). -/
def pyStr : Yaml → String
  | .str s => s
  | v => pyRepr v

/-- Python `dict.get(key)` on a parsed YAML mapping, with `None` as the
default for an absent key.  Keys of a parsed mapping are unique, so the
first match is the value. -/
def dictGet (entries : List (String × Yaml)) (key : String) : Yaml :=
  match entries.lookup key with
  | some v => v
  | none => .null

/-- Python `str.upper`, restricted to ASCII case mapping (the only case the
request files exercise). -/
def pyUpper (s : String) : String := ⟨s.data.map Char.toUpper⟩

/-- Python `str.lower`, restricted to ASCII case mapping. -/
def pyLower (s : String) : String := ⟨s.data.map Char.toLower⟩

/-- Characters stripped by Python's default `str.strip` (ASCII whitespace). -/
def pyIsSpace (c : Char) : Bool :=
  c = ' ' || c = '\t' || c = '\n' || c = '\r' || c = '\x0b' || c = '\x0c'

/-- Python `str.strip()` on a character sequence. -/
def pyStrip (cs : List Char) : List Char :=
  ((cs.dropWhile pyIsSpace).reverse.dropWhile pyIsSpace).reverse

/-- Python substring containment `needle in hay` on character sequences. -/
def pyInStr (needle hay : List Char) : Bool :=
  hay.tails.any fun t => needle.isPrefixOf t

/-- Python `pathlib.Path.stem`: the file name without its last suffix, where
a suffix is a final `.`-separated part that is neither the whole name nor
empty (so `"a.yaml"` has stem `"a"`, `".bashrc"` has stem `".bashrc"`). -/
def stem (fileName : String) : String :=
  let cs := fileName.data
  let idxs := (List.range cs.length).filter fun i =>
    decide (0 < i) && decide (i + 1 < cs.length) && (cs.getD i ' ' == '.')
  match idxs.getLast? with
  | some i => ⟨cs.take i⟩
  | none => fileName

/-- Mirror of `tcurl.models.Variable` (a dataclass with two string fields). -/
structure Variable where
  name : String
  placeholder : String
deriving DecidableEq

/-- Mirror of `tcurl.models.RequestSet`.  `headers` keeps the raw YAML
values as the Python code does (it only checks `isinstance(..., dict)`);
`file_path` is the file name inside the requests directory. -/
structure RequestSet where
  name : String
  method : String
  url : String
  headers : List (String × Yaml)
  body : Option String
  description : String
  «variables» : List Variable
  file_path : Option String

/-- Mirror of the `Response` dataclass (imported by `tcurl.app` from
`tcurl.models`; its definition appears in the sibling `tappet.models`).
`body` is kept as a character sequence because the formatter slices it;
`elapsed_ms` is a float in the source, modelled as whole milliseconds since
no claim depends on fractional values. -/
structure Response where
  status_code : Option Int := none
  reason : Option String := none
  headers : Option (List (String × String)) := none
  body : List Char := []
  elapsed_ms : Option Nat := none
  error : Option String := none
  note : Option String := none
deriving DecidableEq

/-- Outcome of `yaml.safe_load` on one file: `none` models a raised
`yaml.YAMLError` (malformed YAML text), `some v` a successful parse. -/
abbrev YamlDoc := Option Yaml

/-- One file of the requests directory as seen by `load_request_sets`:
its file name and the outcome of parsing its content. -/
structure YamlFile where
  name : String
  doc : YamlDoc

/-- Embedding of `storage._read_yaml`: re-raises a YAML parse error and
otherwise returns `data or \x7b\x7d` (a falsy parse result — `None`, `""`,
`[]`, ... — is replaced by the empty mapping). -/
def read_yaml (doc : YamlDoc) : Except Unit Yaml :=
  match doc with
  | none => .error ()
  | some v => .ok (if pyTruthy v then v else .dict [])

/-- Embedding of `storage._parse_variables`. -/
def parse_variables : Yaml → List Variable
  | .list items =>
    items.filterMap fun item =>
      match item with
      | .dict entries =>
        let nameVal := dictGet entries "name"
        let nm := if pyTruthy nameVal then pyStr nameVal else ""
        let phVal := dictGet entries "placeholder"
        let ph := if pyTruthy phVal then pyStr phVal else ""
        if nm = "" ∧ ph = "" then none else some ⟨nm, ph⟩
      | _ => none
  | _ => []

/-- Embedding of `storage._parse_request_set`.  Each field follows the
Python line for line: `str(data.get(k) or default)` becomes a truthiness
test on `dictGet` followed by `pyStr`. -/
def parse_request_set (data : List (String × Yaml)) (path : String) : RequestSet :=
  let nameVal := dictGet data "name"
  let methodVal := dictGet data "method"
  let urlVal := dictGet data "url"
  let descVal := dictGet data "description"
  { name := pyStr (if pyTruthy nameVal then nameVal else .str (stem path))
    method := pyUpper (pyStr (if pyTruthy methodVal then methodVal else .str "GET"))
    url := pyStr (if pyTruthy urlVal then urlVal else .str "")
    headers := match dictGet data "headers" with
      | .dict es => es
      | _ => []
    body := match dictGet data "body" with
      | .null => none
      | .str s => some s
      | v => some (pyStr v)
    description := pyStr (if pyTruthy descVal then descVal else .str "")
    «variables» := parse_variables (dictGet data "variables")
    file_path := some path }

/-- Executable lexicographic comparison of character sequences, the order
Python uses to compare strings (code-point lexicographic, prefix first).
Proved below to agree with the standard list order. -/
def charsLe : List Char → List Char → Bool
  | [], _ => true
  | _ :: _, [] => false
  | a :: as, b :: bs => if a < b then true else if b < a then false else charsLe as bs

/-- Lexicographic comparison of strings (Python `str` comparison). -/
def strLe (a b : String) : Bool := charsLe a.data b.data

/-- Stable insertion into a name-sorted file list (helper of `sortFiles`). -/
def insertFile (f : YamlFile) : List YamlFile → List YamlFile
  | [] => [f]
  | g :: t => if strLe g.name f.name then g :: insertFile f t else f :: g :: t

/-- Python's `sorted` on same-directory `Path`s: stable sort by
lexicographic order of the file-name strings (modelled as an insertion
sort, which the sortedness and permutation lemmas below characterize). -/
def sortFiles (files : List YamlFile) : List YamlFile :=
  files.foldr insertFile []

/-- Body of the loop of `storage.load_request_sets` over the already-sorted
file list: a YAML error propagates (aborting the whole load), a non-mapping
parse result is skipped, a mapping is parsed and appended. -/
def loadSorted : List YamlFile → Except Unit (List RequestSet)
  | [] => .ok []
  | f :: rest =>
    match read_yaml f.doc with
    | .error e => .error e
    | .ok (.dict entries) =>
      (loadSorted rest).map fun rs => parse_request_set entries f.name :: rs
    | .ok _ => loadSorted rest

/-- Embedding of `storage.load_request_sets`: iterate over
`sorted(REQUESTS_DIR.glob("*.y*ml"))`.  The argument is the directory's
glob result (file name plus parse outcome), in arbitrary order. -/
def load_request_sets (files : List YamlFile) : Except Unit (List RequestSet) :=
  loadSorted (sortFiles files)

/-- Per-file outcome of the load loop when no YAML error occurs: the parse
of the file's mapping, or `none` for a skipped (non-mapping) file. -/
def parseIfDict (f : YamlFile) : Option RequestSet :=
  match read_yaml f.doc with
  | Except.ok (Yaml.dict es) => some (parse_request_set es f.name)
  | _ => none

/-- Name order on loaded definitions: the file paths they carry are in
ascending (lexicographic string) order. -/
def nameLe (a b : RequestSet) : Prop :=
  ∀ x y, a.file_path = some x → b.file_path = some y → x ≤ y

/-- Fuel-bounded decimal rendering (the fuel only bounds the digit count;
`n + 1` fuel always suffices, see `natChars_eq`). -/
def natCharsAux : Nat → Nat → List Char
  | 0, _ => []
  | fuel + 1, n =>
    if n < 10 then [Nat.digitChar n]
    else natCharsAux fuel (n / 10) ++ [Nat.digitChar (n % 10)]

/-- Decimal digits of a natural number, as rendered by a Python f-string
(`f"new_request_\x7bcounter\x7d.yaml"` renders `counter` in decimal with no
sign and no padding). -/
def natChars (n : Nat) : List Char := natCharsAux (n + 1) n

/-- Decimal digits of an integer, as rendered by Python `str(int)` /
`repr(int)` (used by `json.dumps` for numbers). -/
def intChars (n : Int) : List Char :=
  if n < 0 then '-' :: natChars n.natAbs else natChars n.toNat

/-- Decimal value of a digit string, used to show `natChars` is injective. -/
def digitsVal (cs : List Char) : Nat :=
  cs.foldl (fun acc c => acc * 10 + (c.toNat - 48)) 0

/-- Candidate file name `new_request_<k>.yaml` tried by
`storage._next_request_path`. -/
def candidateName (k : Nat) : String :=
  "new_request_" ++ ⟨natChars k⟩ ++ ".yaml"

/-- Loop of `storage._next_request_path`, made total with explicit fuel:
the Python `while True` increments `counter` until a candidate name does not
exist in the directory.  `existing.length + 1` fuel always suffices (proved
below). -/
def nextAux (existing : List String) : Nat → Nat → Option String
  | _, 0 => none
  | counter, fuel + 1 =>
    if candidateName counter ∈ existing then nextAux existing (counter + 1) fuel
    else some (candidateName counter)

/-- Embedding of `storage._next_request_path` over the set of file names
currently in the requests directory. -/
def next_request_path (existing : List String) : Option String :=
  if "new_request.yaml" ∈ existing then nextAux existing 1 (existing.length + 1)
  else some "new_request.yaml"

/-- Template written by `storage.create_request_set` for the default name
`"New Request"` (the `name` parameter defaults to `None`). -/
def createTemplate : List (String × Yaml) :=
  [("name", .str "New Request"),
   ("description", .str ""),
   ("method", .str "GET"),
   ("url", .str "https://api.example.com"),
   ("headers", .dict [("Content-Type", .str "application/json")]),
   ("body", .str ""),
   ("variables", .list [])]

/-- Embedding of `storage.create_request_set` (default `name` argument):
writes the template at the fresh path and returns it parsed.  The `Option`
reflects the fuel in `next_request_path` only. -/
def create_request_set (existing : List String) : Option RequestSet :=
  (next_request_path existing).map fun file_path =>
    parse_request_set createTemplate file_path

/-! JSON model for the response formatter (`tcurl.app` uses `json.loads`
and `json.dumps(..., indent=2, ensure_ascii=True)`).  Numbers are modelled
as integers: no claim, witness or counterexample involves a float. -/

/-- JSON values as produced by `json.loads` (floats omitted, see above). -/
inductive Json where
  | null : Json
  | bool (b : Bool) : Json
  | num (n : Int) : Json
  | str (s : List Char) : Json
  | arr (items : List Json) : Json
  | obj (entries : List (List Char × Json)) : Json

/-- JSON whitespace accepted between tokens by `json.loads`. -/
def jsonWs (c : Char) : Bool :=
  c = ' ' || c = '\t' || c = '\n' || c = '\r'

/-- Hexadecimal digit test for `\uXXXX` escapes. -/
def isHex (c : Char) : Bool :=
  c.isDigit || ('a' ≤ c && c ≤ 'f') || ('A' ≤ c && c ≤ 'F')

/-- Value of a hexadecimal digit. -/
def hexVal (c : Char) : Nat :=
  if c.isDigit then c.toNat - 48
  else if 'a' ≤ c && c ≤ 'f' then c.toNat - 87
  else c.toNat - 55

/-- Decode one JSON string body (the part after the opening quote),
returning the decoded characters and the rest of the input.  Surrogate
pairs in `\uXXXX` escapes are not combined (no claim exercises them). -/
def jstring : List Char → Option (List Char × List Char)
  | [] => none
  | '"' :: rest => some ([], rest)
  | '\\' :: esc =>
    match esc with
    | 'u' :: a :: b :: c :: d :: rest =>
      if isHex a && isHex b && isHex c && isHex d then
        (jstring rest).map fun (s, r) =>
          (Char.ofNat (((hexVal a * 16 + hexVal b) * 16 + hexVal c) * 16 + hexVal d) :: s, r)
      else none
    | e :: rest =>
      let decoded : Option Char :=
        if e = '"' then some '"'
        else if e = '\\' then some '\\'
        else if e = '/' then some '/'
        else if e = 'b' then some '\x08'
        else if e = 'f' then some '\x0c'
        else if e = 'n' then some '\n'
        else if e = 'r' then some '\r'
        else if e = 't' then some '\t'
        else none
      match decoded with
      | some c => (jstring rest).map fun (s, r) => (c :: s, r)
      | none => none
    | [] => none
  | c :: rest =>
    if c.toNat < 32 then none
    else (jstring rest).map fun (s, r) => (c :: s, r)

/-- Decode a JSON integer literal (optional minus sign, digits, no leading
zero), returning its value and the rest of the input. -/
def jnumber (cs : List Char) : Option (Int × List Char) :=
  let (neg, cs1) := match cs with
    | '-' :: rest => (true, rest)
    | _ => (false, cs)
  let ds := cs1.takeWhile Char.isDigit
  let rest := cs1.dropWhile Char.isDigit
  if ds = [] then none
  else if ds.length > 1 ∧ ds.headD '0' = '0' then none
  else
    let v : Int := Int.ofNat (digitsVal ds)
    some (if neg then -v else v, rest)

mutual

/-- Recursive-descent JSON value parser mirroring `json.loads`, with fuel
bounding the nesting depth (`(input length) + 1` always suffices). -/
def jvalue : Nat → List Char → Option (Json × List Char)
  | 0, _ => none
  | fuel + 1, cs =>
    match cs.dropWhile jsonWs with
    | 'n' :: 'u' :: 'l' :: 'l' :: rest => some (.null, rest)
    | 't' :: 'r' :: 'u' :: 'e' :: rest => some (.bool true, rest)
    | 'f' :: 'a' :: 'l' :: 's' :: 'e' :: rest => some (.bool false, rest)
    | '"' :: rest => (jstring rest).map fun (s, r) => (.str s, r)
    | '[' :: rest => jarray fuel rest
    | '\x7b' :: rest => jobject fuel rest
    | other => (jnumber other).map fun (n, r) => (.num n, r)

/-- Parse the inside of a JSON array (after `[`). -/
def jarray : Nat → List Char → Option (Json × List Char)
  | 0, _ => none
  | fuel + 1, cs =>
    match cs.dropWhile jsonWs with
    | ']' :: rest => some (.arr [], rest)
    | other =>
      (jvalue fuel other).bind fun (v, r) =>
        (jarrayTail fuel r).map fun (vs, r2) => (.arr (v :: vs), r2)

/-- Parse the remaining elements of a JSON array (`,`-separated, up to `]`). -/
def jarrayTail : Nat → List Char → Option (List Json × List Char)
  | 0, _ => none
  | fuel + 1, cs =>
    match cs.dropWhile jsonWs with
    | ']' :: rest => some ([], rest)
    | ',' :: rest =>
      (jvalue fuel rest).bind fun (v, r) =>
        (jarrayTail fuel r).map fun (vs, r2) => (v :: vs, r2)
    | _ => none

/-- Parse the inside of a JSON object (after an opening brace). -/
def jobject : Nat → List Char → Option (Json × List Char)
  | 0, _ => none
  | fuel + 1, cs =>
    match cs.dropWhile jsonWs with
    | '\x7d' :: rest => some (.obj [], rest)
    | '"' :: rest =>
      (jmember fuel rest).bind fun (kv, r) =>
        (jobjectTail fuel r).map fun (kvs, r2) => (.obj (kv :: kvs), r2)
    | _ => none

/-- Parse the remaining members of a JSON object (`,`-separated, up to a
closing brace). -/
def jobjectTail : Nat → List Char → Option (List (List Char × Json) × List Char)
  | 0, _ => none
  | fuel + 1, cs =>
    match cs.dropWhile jsonWs with
    | '\x7d' :: rest => some ([], rest)
    | ',' :: rest =>
      match (rest.dropWhile jsonWs) with
      | '"' :: rest2 =>
        (jmember fuel rest2).bind fun (kv, r) =>
          (jobjectTail fuel r).map fun (kvs, r2) => (kv :: kvs, r2)
      | _ => none
    | _ => none

/-- Parse one object member from after the opening quote of its key. -/
def jmember : Nat → List Char → Option ((List Char × Json) × List Char)
  | 0, _ => none
  | fuel + 1, cs =>
    (jstring cs).bind fun (key, r) =>
      match r.dropWhile jsonWs with
      | ':' :: rest =>
        (jvalue fuel rest).map fun (v, r2) => ((key, v), r2)
      | _ => none

end

/-- Embedding of `json.loads` on a whole document: parse one value and
require only whitespace to follow. -/
def json_loads (cs : List Char) : Option Json :=
  match jvalue (cs.length + 1) cs with
  | some (v, rest) => if rest.dropWhile jsonWs = [] then some v else none
  | none => none

/-- Four lowercase hexadecimal digits of a code point, as in `\uXXXX`. -/
def hex4 (n : Nat) : List Char :=
  [Nat.digitChar (n / 4096 % 16), Nat.digitChar (n / 256 % 16),
   Nat.digitChar (n / 16 % 16), Nat.digitChar (n % 16)]

/-- String escaping of `json.dumps(..., ensure_ascii=True)`: short escapes
for the usual control characters, `\uXXXX` for other controls and for
everything outside printable ASCII (astral code points would use surrogate
pairs; no claim exercises them). -/
def jescape : List Char → List Char
  | [] => []
  | c :: rest =>
    let enc : List Char :=
      if c = '"' then ['\\', '"']
      else if c = '\\' then ['\\', '\\']
      else if c = '\x08' then ['\\', 'b']
      else if c = '\x0c' then ['\\', 'f']
      else if c = '\n' then ['\\', 'n']
      else if c = '\r' then ['\\', 'r']
      else if c = '\t' then ['\\', 't']
      else if c.toNat < 32 || c.toNat > 126 then '\\' :: 'u' :: hex4 c.toNat
      else [c]
    enc ++ jescape rest

/-- Indentation prefix at nesting depth `level` for `indent=2`. -/
def jpad (level : Nat) : List Char := List.replicate (2 * level) ' '

mutual

/-- Embedding of `json.dumps(value, indent=2, ensure_ascii=True)` at a
given nesting depth. -/
def jdumpLevel (level : Nat) : Json → List Char
  | .null => "null".data
  | .bool true => "true".data
  | .bool false => "false".data
  | .num n => intChars n
  | .str s => '"' :: (jescape s ++ ['"'])
  | .arr [] => "[]".data
  | .arr (x :: xs) =>
    let inner := jdumpItems (level + 1) (x :: xs)
    let sep := ',' :: '\n' :: jpad (level + 1)
    "[\n".data ++ jpad (level + 1) ++ sep.intercalate inner ++
      '\n' :: (jpad level ++ "]".data)
  | .obj [] => "\x7b\x7d".data
  | .obj (kv :: kvs) =>
    let inner := jdumpMembers (level + 1) (kv :: kvs)
    let sep := ',' :: '\n' :: jpad (level + 1)
    "\x7b\n".data ++ jpad (level + 1) ++ sep.intercalate inner ++
      '\n' :: (jpad level ++ "\x7d".data)

/-- Render each array element at the given depth. -/
def jdumpItems (level : Nat) : List Json → List (List Char)
  | [] => []
  | x :: xs => jdumpLevel level x :: jdumpItems level xs

/-- Render each object member `"key": value` at the given depth. -/
def jdumpMembers (level : Nat) : List (List Char × Json) → List (List Char)
  | [] => []
  | (k, v) :: xs =>
    ('"' :: (jescape k ++ '"' :: ':' :: ' ' :: jdumpLevel level v)) :: jdumpMembers level xs

end

/-- Embedding of `json.dumps(value, indent=2, ensure_ascii=True)`. -/
def json_dumps (j : Json) : List Char := jdumpLevel 0 j

/-- Python truthiness of an optional string field (`None` and `""` falsy). -/
def pyTruthyOptStr : Option String → Bool
  | none => false
  | some s => s ≠ ""

/-- Content type looked up by `_format_response_body`: `""` unless
`response.headers` is truthy, else `response.headers.get("Content-Type", "")`. -/
def contentTypeOf (response : Response) : String :=
  match response.headers with
  | some hs => if hs.isEmpty then "" else ((hs.lookup "Content-Type").getD "")
  | none => ""

/-- Condition under which `_format_response_body` attempts JSON formatting:
`"application/json" in content_type.lower()` or the stripped body starts
with an opening brace or bracket. -/
def jsonEligible (response : Response) : Bool :=
  pyInStr "application/json".data (pyLower (contentTypeOf response)).data ||
    (match pyStrip response.body with
     | c :: _ => c = '\x7b' || c = '['
     | [] => false)

/-- JSON stage of `_format_response_body` (`tcurl/app.py` lines 217-228):
on a truthy body that is JSON-eligible, replace it by the pretty-printed
parse when `json.loads` succeeds and keep it unchanged when it raises. -/
def jsonStage (response : Response) : List Char :=
  if response.body ≠ [] then
    if jsonEligible response then
      match json_loads response.body with
      | some j => json_dumps j
      | none => response.body
    else response.body
  else response.body

/-- Displayed body before truncation (`tcurl/app.py` lines 229-230): the
JSON stage output, or `"(empty)"` when it is empty. -/
def displayedBody (response : Response) : List Char :=
  let t := jsonStage response
  if t = [] then "(empty)".data else t

/-- Truncation step of `_format_response_body` (`tcurl/app.py` lines
231-233). -/
def truncateDisplayed (cs : List Char) : List Char :=
  if 4000 < cs.length then cs.take 4000 ++ "\n... (truncated)".data else cs

/-- Embedding of `ResponsePanelWidget._format_response_body`
(`tcurl/app.py` lines 215-233): optional JSON pretty-printing, `"(empty)"`
placeholder, then truncation at 4000 characters. -/
def format_response_body (response : Response) : List Char :=
  truncateDisplayed (displayedBody response)

/-- Status line of the completed view (`_format_response_details`):
`"Status: (unknown)"` when `status_code` is `None`, else the code with an
optional reason (truthiness test) and optional elapsed time. -/
def statusLine (response : Response) : String :=
  match response.status_code with
  | none => "Status: (unknown)"
  | some code =>
    let reason := if pyTruthyOptStr response.reason
      then " " ++ response.reason.getD "" else ""
    let elapsed := match response.elapsed_ms with
      | some ms => " (" ++ toString ms ++ " ms)"
      | none => ""
    "Status: " ++ toString code ++ reason ++ elapsed

/-- Rendered headers block of the completed view: `"k: v"` lines joined by
newlines, `"(none)"` when empty (`response.headers or \x7b\x7d`). -/
def headersText (response : Response) : String :=
  let hs := response.headers.getD []
  let t := String.intercalate "\n" (hs.map fun kv => kv.1 ++ ": " ++ kv.2)
  if t = "" then "(none)" else t

/-- Completed-state view of `_format_response_details` (the code path taken
when neither `note` nor `error` is truthy). -/
def completedView (response : Response) : List Char :=
  ("Response\n\n" ++ statusLine response ++ "\n\n[Headers]\n" ++
    headersText response ++ "\n\n[Body]\n").data ++ format_response_body response

/-- Embedding of `ResponsePanelWidget._format_response_details`
(`tcurl/app.py` lines 186-213). -/
def format_response_details (response : Option Response) : List Char :=
  match response with
  | none => "Response\n\n(not run)".data
  | some r =>
    if pyTruthyOptStr r.note then ("Response\n\n" ++ r.note.getD "").data
    else if pyTruthyOptStr r.error then ("Response\n\nError: " ++ r.error.getD "").data
    else completedView r

/-- Modelled from the spec: `RequestSetStore.set_response` of the missing
`tcurl/store.py` — "cache mutation, overwrite semantics (last write wins),
no expiry" (§4.1), cache "keyed by identity handle" (§3).  The cache is a
map from identity handles (any type with decidable equality) to cached
responses. -/
def set_response {κ : Type} [DecidableEq κ]
    (cache : κ → Option Response) (key : κ) (r : Response) : κ → Option Response :=
  fun k => if k = key then some r else cache k

/-- Modelled from the spec: `RequestSetStore.get_response` of the missing
`tcurl/store.py` — "`getResponse(identity) → optional Response`" (§4.1). -/
def get_response {κ : Type}
    (cache : κ → Option Response) (key : κ) : Option Response :=
  cache key

/-- Transient response `Response(note="Running...")` placed in the cache by
`TcurlApp.on_request_list_widget_run_requested` (`tcurl/app.py` line 372). -/
def runningResponse : Response := { note := some "Running..." }

/-- Cache states produced by one run of
`TcurlApp.on_request_list_widget_run_requested` (`tcurl/app.py` lines
368-377) for a definition with identity `key`, starting from cache `c0`,
when the awaited `execute_request` returns `fin`:
`preDispatch` is the cache at the moment the execution task is dispatched
(the `await` on line 374, after the `set_response` on line 372);
`postComplete` is the cache after the final `set_response` on line 375;
`observed` lists every cache state in order of occurrence. -/
structure RunTrace (κ : Type) where
  preDispatch : κ → Option Response
  postComplete : κ → Option Response
  observed : List (κ → Option Response)

/-- Embedding of the handler `on_request_list_widget_run_requested`: write
the transient "Running..." response, dispatch the execution, then overwrite
with the final response. -/
def run_request {κ : Type} [DecidableEq κ]
    (c0 : κ → Option Response) (key : κ) (fin : Response) : RunTrace κ :=
  let c1 := set_response c0 key runningResponse
  let c2 := set_response c1 key fin
  { preDispatch := c1, postComplete := c2, observed := [c0, c1, c2] }

/-- Modelled from the spec: the Variable Substitution Engine of the missing
`tcurl/http_client.py` — "replace each occurrence of a placeholder token
`$1`, `$2`, … (1-indexed …) with the corresponding value, left untouched if
no value supplied for that index" (§4.2).  A `$` is read together with the
maximal digit run following it; an in-range index is replaced by its value,
any other token (out-of-range index, `$0`, or `$` without digits) is kept
verbatim. -/
def substitute_variables (values : List String) : List Char → List Char
  | [] => []
  | c :: rest =>
    if c = '$' then
      let ds := rest.takeWhile Char.isDigit
      if ds = [] then '$' :: substitute_variables values rest
      else
        let n := digitsVal ds
        let tail := rest.dropWhile Char.isDigit
        if 1 ≤ n ∧ n ≤ values.length then
          (values.getD (n - 1) "").data ++ substitute_variables values tail
        else '$' :: (ds ++ substitute_variables values tail)
    else c :: substitute_variables values rest
termination_by cs => cs.length
decreasing_by
  all_goals simp_wf
  all_goals
    have h := (List.dropWhile_sublist (l := rest) (p := Char.isDigit)).length_le
    omega

/-- Abstract view of a body template for the substitution contract (§4.2):
a template is literal text interleaved with placeholder tokens `$N`. -/
inductive TPart where
  | lit (cs : List Char) : TPart
  | var (n : Nat) : TPart

/-- Raw text of one template part (`var n` is the token `$N`). -/
def TPart.raw : TPart → List Char
  | .lit cs => cs
  | .var n => '$' :: natChars n

/-- Whether the raw text of a part begins with a decimal digit. -/
def TPart.startsDigit : TPart → Bool
  | .lit (c :: _) => c.isDigit
  | .lit [] => false
  | .var _ => false

/-- Well-formedness of one part: literal text is nonempty and contains no
`$`; placeholder indices are 1-based. -/
def wfPart : TPart → Bool
  | .lit cs => !cs.isEmpty && !cs.contains '$'
  | .var n => decide (1 ≤ n)

/-- Adjacent parts do not merge into a longer token: a placeholder is never
directly followed by literal text that begins with a digit. -/
def noMerge : TPart → TPart → Bool
  | .var _, b => !b.startsDigit
  | _, _ => true

/-- Chain of `noMerge` over consecutive parts. -/
def chainNoMerge : List TPart → Bool
  | a :: b :: rest => noMerge a b && chainNoMerge (b :: rest)
  | _ => true

/-- Well-formed template: well-formed parts that do not merge. -/
def wfTemplate (t : List TPart) : Bool := t.all wfPart && chainNoMerge t

/-- Raw template text: the body string the template denotes. -/
def flattenTemplate (t : List TPart) : List Char := (t.map TPart.raw).flatten

/-- Specification-side substitution (§4.2): each placeholder `$N` with
`1 ≤ N ≤ values.length` becomes the `N`-th value, any other placeholder
stays verbatim, literal text is untouched. -/
def renderTemplate (values : List String) (t : List TPart) : List Char :=
  (t.map fun p =>
    match p with
    | .lit cs => cs
    | .var n =>
      if 1 ≤ n ∧ n ≤ values.length then (values.getD (n - 1) "").data
      else '$' :: natChars n).flatten

/-! Theorems.  First, facts about the decimal rendering `natChars`. -/

lemma digitChar_isDigit {n : Nat} (h : n < 10) : (Nat.digitChar n).isDigit := by
  interval_cases n <;> decide

lemma digitChar_toNat_sub {n : Nat} (h : n < 10) : (Nat.digitChar n).toNat - 48 = n := by
  interval_cases n <;> decide

lemma natCharsAux_fuel {n : Nat} : ∀ {f1 f2 : Nat}, n < f1 → n < f2 →
    natCharsAux f1 n = natCharsAux f2 n := by
  induction n using Nat.strong_induction_on with
  | _ n ih =>
    intro f1 f2 h1 h2
    match f1, f2 with
    | 0, _ => omega
    | _ + 1, 0 => omega
    | g1 + 1, g2 + 1 =>
      rw [natCharsAux, natCharsAux]
      by_cases h10 : n < 10
      · rw [if_pos h10, if_pos h10]
      · rw [if_neg h10, if_neg h10]
        have hdiv : n / 10 < n := Nat.div_lt_self (by omega) (by omega)
        have hrec : natCharsAux g1 (n / 10) = natCharsAux g2 (n / 10) :=
          ih (n / 10) hdiv (by omega) (by omega)
        rw [hrec]

lemma natChars_eq (n : Nat) :
    natChars n = if n < 10 then [Nat.digitChar n]
      else natChars (n / 10) ++ [Nat.digitChar (n % 10)] := by
  rw [natChars, natCharsAux]
  by_cases h10 : n < 10
  · rw [if_pos h10, if_pos h10]
  · rw [if_neg h10, if_neg h10, natChars]
    have hdiv : n / 10 < n := Nat.div_lt_self (by omega) (by omega)
    have hrec : natCharsAux n (n / 10) = natCharsAux (n / 10 + 1) (n / 10) :=
      natCharsAux_fuel (by omega) (by omega)
    rw [hrec]

lemma natChars_ne_nil (n : Nat) : natChars n ≠ [] := by
  rw [natChars_eq]
  split
  · simp
  · simp

lemma natChars_all_digits (n : Nat) : ∀ c ∈ natChars n, c.isDigit := by
  induction n using Nat.strong_induction_on with
  | _ n ih =>
    rw [natChars_eq]
    split
    · next h =>
      intro c hc
      simp only [List.mem_singleton] at hc
      subst hc
      exact digitChar_isDigit h
    · next h =>
      intro c hc
      rcases List.mem_append.mp hc with h1 | h2
      · exact ih (n / 10) (Nat.div_lt_self (by omega) (by omega)) c h1
      · simp only [List.mem_singleton] at h2
        subst h2
        exact digitChar_isDigit (Nat.mod_lt _ (by omega))

lemma digitsVal_append_singleton (cs : List Char) (c : Char) :
    digitsVal (cs ++ [c]) = digitsVal cs * 10 + (c.toNat - 48) := by
  simp [digitsVal, List.foldl_append]

lemma digitsVal_natChars (n : Nat) : digitsVal (natChars n) = n := by
  induction n using Nat.strong_induction_on with
  | _ n ih =>
    rw [natChars_eq]
    split
    · next h =>
      simpa [digitsVal] using digitChar_toNat_sub h
    · next h =>
      rw [digitsVal_append_singleton, ih (n / 10) (Nat.div_lt_self (by omega) (by omega)),
        digitChar_toNat_sub (Nat.mod_lt _ (by omega))]
      omega

lemma natChars_injective : Function.Injective natChars := by
  intro a b h
  have ha := digitsVal_natChars a
  rw [h, digitsVal_natChars] at ha
  omega

lemma candidateName_injective : Function.Injective candidateName := by
  intro a b h
  have hd : ("new_request_".data ++ natChars a) ++ ".yaml".data =
      ("new_request_".data ++ natChars b) ++ ".yaml".data := congrArg String.data h
  exact natChars_injective (List.append_cancel_left (List.append_cancel_right hd))

lemma candidateName_ne_base (k : Nat) : candidateName k ≠ "new_request.yaml" := by
  intro h
  have hd : "new_request_".data ++ (natChars k ++ ".yaml".data) =
      "new_request.yaml".data := by
    have hd0 : ("new_request_".data ++ natChars k) ++ ".yaml".data =
        "new_request.yaml".data := congrArg String.data h
    rw [List.append_assoc] at hd0
    exact hd0
  have ht : ("new_request_".data ++ (natChars k ++ ".yaml".data)).take 12 =
      "new_request.yaml".data.take 12 := by rw [hd]
  rw [show (12 : Nat) = "new_request_".data.length from rfl, List.take_left] at ht
  exact absurd ht (by decide)

lemma exists_free_candidate (existing : List String) :
    ∃ k, 1 ≤ k ∧ k ≤ existing.length + 1 ∧ candidateName k ∉ existing := by
  by_contra hc
  push_neg at hc
  have hsub : (List.range' 1 (existing.length + 1)).map candidateName ⊆ existing := by
    intro x hx
    rcases List.mem_map.mp hx with ⟨k, hk, rfl⟩
    rcases List.mem_range'_1.mp hk with ⟨h1, h2⟩
    exact hc k h1 (by omega)
  have hnd : ((List.range' 1 (existing.length + 1)).map candidateName).Nodup :=
    (List.nodup_range' 1 (existing.length + 1)).map candidateName_injective
  have hlen := (List.subperm_of_subset hnd hsub).length_le
  rw [List.length_map, List.length_range'] at hlen
  omega

lemma nextAux_spec (existing : List String) :
    ∀ fuel counter,
      (∃ j, counter ≤ j ∧ j < counter + fuel ∧ candidateName j ∉ existing) →
      ∃ k, nextAux existing counter fuel = some (candidateName k) ∧ counter ≤ k ∧
        candidateName k ∉ existing ∧
        ∀ j, counter ≤ j → j < k → candidateName j ∈ existing := by
  intro fuel
  induction fuel with
  | zero =>
    intro counter ⟨j, h1, h2, _⟩
    omega
  | succ fuel ih =>
    intro counter ⟨j, h1, h2, h3⟩
    by_cases hmem : candidateName counter ∈ existing
    · have hjc : j ≠ counter := fun he => h3 (he ▸ hmem)
      obtain ⟨k, hk1, hk2, hk3, hk4⟩ := ih (counter + 1) ⟨j, by omega, by omega, h3⟩
      refine ⟨k, ?_, by omega, hk3, ?_⟩
      · rw [nextAux]
        simp [hmem, hk1]
      · intro j' hj1 hj2
        rcases Nat.eq_or_lt_of_le hj1 with he | hlt
        · exact he ▸ hmem
        · exact hk4 j' hlt hj2
    · refine ⟨counter, ?_, Nat.le_refl _, hmem, fun j' hj1 hj2 => absurd hj2 (by omega)⟩
      rw [nextAux]
      simp [hmem]

/-- C3: for every state of the requests directory, `_next_request_path`
returns a path distinct from every existing file: `new_request.yaml` when
that name is free, otherwise `new_request_<k>.yaml` for the smallest
positive `k` whose candidate is free; the returned path never collides with
an existing file.  (The `Option` is the explicit fuel of the embedded
`while True` loop; the theorem shows the fuel always suffices.) -/
theorem next_request_path_fresh (existing : List String) :
    ∃ p, next_request_path existing = some p ∧ p ∉ existing ∧
      ((p = "new_request.yaml" ∧ "new_request.yaml" ∉ existing) ∨
       ("new_request.yaml" ∈ existing ∧ ∃ k, 1 ≤ k ∧ p = candidateName k ∧
          ∀ j, 1 ≤ j → j < k → candidateName j ∈ existing)) := by
  unfold next_request_path
  by_cases hbase : "new_request.yaml" ∈ existing
  · obtain ⟨k0, hk1, hk2, hk3⟩ := exists_free_candidate existing
    obtain ⟨k, ha1, ha2, ha3, ha4⟩ :=
      nextAux_spec existing (existing.length + 1) 1 ⟨k0, hk1, by omega, hk3⟩
    refine ⟨candidateName k, by simp [hbase, ha1], ha3, Or.inr ⟨hbase, k, ha2, rfl, ha4⟩⟩
  · exact ⟨"new_request.yaml", by simp [hbase], hbase, Or.inl ⟨rfl, hbase⟩⟩

/-- Witness for C3 at a concrete directory: with `new_request.yaml` and
`new_request_1.yaml` taken, the fresh path exists and avoids both. -/
theorem next_request_path_fresh_witness :
    ∃ p, next_request_path ["new_request.yaml", "new_request_1.yaml"] = some p ∧
      p ∉ ["new_request.yaml", "new_request_1.yaml"] := by
  obtain ⟨p, h1, h2, _⟩ := next_request_path_fresh ["new_request.yaml", "new_request_1.yaml"]
  exact ⟨p, h1, h2⟩

/-- C2: for every run of a definition, the cache holds the transient
`Running...` response (note set) at the moment the execution is dispatched
(the transient write precedes the dispatch), the final response overwrites
it on completion, and every cache state an observer can see maps the
definition's key to its initial entry, the transient response, or the
final response — never anything else.  Other keys are never touched. -/
theorem run_request_cache_order {κ : Type} [DecidableEq κ]
    (c0 : κ → Option Response) (key : κ) (fin : Response) :
    runningResponse.note = some "Running..." ∧
    get_response ((run_request c0 key fin).preDispatch) key = some runningResponse ∧
    get_response ((run_request c0 key fin).postComplete) key = some fin ∧
    (run_request c0 key fin).observed =
      [c0, (run_request c0 key fin).preDispatch, (run_request c0 key fin).postComplete] ∧
    (∀ s ∈ (run_request c0 key fin).observed,
      get_response s key = get_response c0 key ∨
      get_response s key = some runningResponse ∨ get_response s key = some fin) ∧
    (∀ s ∈ (run_request c0 key fin).observed, ∀ k, k ≠ key →
      get_response s k = get_response c0 k) := by
  refine ⟨rfl, ?_, ?_, rfl, ?_, ?_⟩
  · simp [run_request, get_response, set_response]
  · simp [run_request, get_response, set_response]
  · intro s hs
    simp only [run_request, List.mem_cons, List.not_mem_nil, or_false] at hs
    rcases hs with rfl | rfl | rfl
    · exact Or.inl rfl
    · exact Or.inr (Or.inl (by simp [get_response, set_response]))
    · exact Or.inr (Or.inr (by simp [get_response, set_response]))
  · intro s hs k hk
    simp only [run_request, List.mem_cons, List.not_mem_nil, or_false] at hs
    rcases hs with rfl | rfl | rfl
    · rfl
    · simp [get_response, set_response, hk]
    · simp [get_response, set_response, hk]

/-- Witness for C2 at a concrete run: key `0` over an empty cache, final
response with status 200; the dispatched-time cache holds the transient
response and the completed cache holds the final one, while key `1` stays
empty throughout. -/
theorem run_request_cache_order_witness :
    get_response ((run_request (fun _ : Nat => none) 0 { status_code := some 200 }).preDispatch) 0 =
      some runningResponse ∧
    get_response ((run_request (fun _ : Nat => none) 0 { status_code := some 200 }).postComplete) 0 =
      some { status_code := some 200 } ∧
    get_response ((run_request (fun _ : Nat => none) 0 { status_code := some 200 }).preDispatch) 1 =
      none := by
  obtain ⟨-, h2, h3, -, -, h6⟩ :=
    run_request_cache_order (fun _ : Nat => none) 0 { status_code := some 200 }
  exact ⟨h2, h3, h6 _ (by simp [run_request]) 1 (by decide)⟩

lemma dropWhile_replicate_x (n : Nat) :
    List.dropWhile pyIsSpace (List.replicate n 'x') = List.replicate n 'x' := by
  cases n with
  | zero => rfl
  | succ m =>
    rw [List.replicate_succ, List.dropWhile_cons]
    simp [show pyIsSpace 'x' = false from by decide, List.replicate_succ]

lemma pyStrip_replicate_x (n : Nat) :
    pyStrip (List.replicate n 'x') = List.replicate n 'x' := by
  rw [pyStrip, dropWhile_replicate_x, List.reverse_replicate, dropWhile_replicate_x,
    List.reverse_replicate]

lemma replicate_x_ne_nil (n : Nat) (h : 0 < n) : List.replicate n 'x' ≠ ([] : List Char) := by
  intro he
  have := congrArg List.length he
  rw [List.length_replicate, List.length_nil] at this
  omega

lemma jsonStage_replicate_x : jsonStage { body := List.replicate 5000 'x' } =
    List.replicate 5000 'x' := by
  have hlig : jsonEligible { body := List.replicate 5000 'x' } = false := by
    rw [jsonEligible]
    simp only [pyStrip_replicate_x]
    rw [show contentTypeOf { body := List.replicate 5000 'x' } = "" from rfl,
      show pyInStr "application/json".data (pyLower "").data = false from rfl,
      show (5000 : Nat) = 4999 + 1 from rfl, List.replicate_succ]
    rfl
  rw [jsonStage]
  rw [if_pos (replicate_x_ne_nil 5000 (by omega)), hlig]
  rw [if_neg (by decide : ¬ (false = true))]

/-- C5: the formatter truncates exactly at 4000 characters: a displayed
body longer than 4000 renders as its first 4000 characters followed by the
truncation marker, a displayed body of at most 4000 characters renders
unchanged, and in particular a body of 5000 `x` characters renders as
4000 `x`s plus the marker. -/
theorem format_response_body_truncation :
    (∀ r : Response, 4000 < (displayedBody r).length →
        format_response_body r = (displayedBody r).take 4000 ++ "\n... (truncated)".data) ∧
    (∀ r : Response, (displayedBody r).length ≤ 4000 →
        format_response_body r = displayedBody r) ∧
    format_response_body { body := List.replicate 5000 'x' } =
      List.replicate 4000 'x' ++ "\n... (truncated)".data := by
  refine ⟨fun r h => ?_, fun r h => ?_, ?_⟩
  · rw [format_response_body, truncateDisplayed, if_pos h]
  · rw [format_response_body, truncateDisplayed, if_neg (by omega)]
  · have hd : displayedBody { body := List.replicate 5000 'x' } = List.replicate 5000 'x' := by
      rw [displayedBody]
      simp only [jsonStage_replicate_x]
      rw [if_neg (replicate_x_ne_nil 5000 (by omega))]
    rw [format_response_body, hd, truncateDisplayed,
      if_pos (by rw [List.length_replicate]; omega), List.take_replicate]
    norm_num

/-- Witness for C5: a short body renders unchanged, by the second part of
the truncation theorem at a concrete response. -/
theorem format_response_body_truncation_witness :
    format_response_body { body := "hi".data } = "hi".data := by
  have h := format_response_body_truncation.2.1 { body := "hi".data } (by decide)
  exact h.trans (by decide)

/-- Counterexample to C6 as stated: a response whose `note` IS set (to the
empty string) while `error` is also set renders the error view, not the
transient note view — Python tests `if response.note:`, so an empty-string
note is skipped. -/
theorem format_response_details_note_set_cex :
    (Response.note { note := some "", error := some "boom" }).isSome = true ∧
    format_response_details (some { note := some "", error := some "boom" }) =
      "Response\n\nError: boom".data ∧
    format_response_details (some { note := some "", error := some "boom" }) ≠
      "Response\n\n".data := by
  exact ⟨rfl, by decide, by decide⟩

/-- C6 amended: the renderer picks exactly one view in fixed priority
order by Python truthiness — a non-empty `note` renders the transient view
(which depends on nothing but the note text), else a non-empty `error`
renders the error view, else the completed status/headers/body view is
rendered. -/
theorem format_response_details_priority (r : Response) :
    (pyTruthyOptStr r.note = true →
        format_response_details (some r) = ("Response\n\n" ++ r.note.getD "").data) ∧
    (pyTruthyOptStr r.note = false → pyTruthyOptStr r.error = true →
        format_response_details (some r) = ("Response\n\nError: " ++ r.error.getD "").data) ∧
    (pyTruthyOptStr r.note = false → pyTruthyOptStr r.error = false →
        format_response_details (some r) = completedView r) := by
  refine ⟨fun h1 => ?_, fun h1 h2 => ?_, fun h1 h2 => ?_⟩
  · simp [format_response_details, h1]
  · simp [format_response_details, h1, h2]
  · simp [format_response_details, h1, h2]

/-- Witness for the amended C6 at concrete responses exercising all three
branches. -/
theorem format_response_details_priority_witness :
    format_response_details (some { note := some "Running...", error := some "e" }) =
      "Response\n\nRunning...".data ∧
    format_response_details (some { error := some "boom" }) =
      "Response\n\nError: boom".data ∧
    format_response_details (some { status_code := some 200 }) =
      completedView { status_code := some 200 } := by
  refine ⟨?_, ?_, ?_⟩
  · exact ((format_response_details_priority
      { note := some "Running...", error := some "e" }).1 (by decide)).trans (by decide)
  · exact ((format_response_details_priority
      { error := some "boom" }).2.1 (by decide) (by decide)).trans (by decide)
  · exact (format_response_details_priority
      { status_code := some 200 }).2.2 (by decide) (by decide)

/-- Counterexample to C7 as stated: a file with `method: 0` parses to
method `"GET"`, not to the uppercase string form `"0"` of its method value
— the code replaces every falsy method value (not only an absent or empty
one) by `"GET"` before uppercasing. -/
theorem parse_method_falsy_cex :
    (parse_request_set [("method", Yaml.int 0)] "m.yaml").method = "GET" ∧
    pyUpper (pyStr (Yaml.int 0)) = "0" ∧
    (parse_request_set [("method", Yaml.int 0)] "m.yaml").method ≠
      pyUpper (pyStr (Yaml.int 0)) := by
  exact ⟨rfl, rfl, by decide⟩

/-- C7 amended: the parsed method equals the uppercased string form of the
file's method value whenever that value is truthy, and equals `"GET"`
whenever it is absent, null, empty, or otherwise falsy. -/
theorem parse_method_upper (data : List (String × Yaml)) (path : String) :
    (pyTruthy (dictGet data "method") = true →
       (parse_request_set data path).method = pyUpper (pyStr (dictGet data "method"))) ∧
    (pyTruthy (dictGet data "method") = false →
       (parse_request_set data path).method = "GET") := by
  constructor
  · intro h
    simp [parse_request_set, h]
  · intro h
    simp [parse_request_set, h, pyUpper, pyStr]

/-- Witness for the amended C7: `method: post` parses to `"POST"` and an
absent method parses to `"GET"`. -/
theorem parse_method_upper_witness :
    (parse_request_set [("method", Yaml.str "post")] "m.yaml").method = "POST" ∧
    (parse_request_set [] "m.yaml").method = "GET" := by
  constructor
  · exact ((parse_method_upper [("method", Yaml.str "post")] "m.yaml").1 (by decide)).trans
      (by decide)
  · exact (parse_method_upper [] "m.yaml").2 (by decide)

/-- C9: a file whose YAML parses to null (an empty file) or to an empty
value is not skipped: it loads as a definition with every default applied —
name equal to the file stem, method `GET`, empty url, empty headers, body
`None`, empty description, no variables, and the file as its path. -/
theorem load_empty_defaults (fileName : String) (v : Yaml)
    (h : v = Yaml.null ∨ v = Yaml.str "" ∨ v = Yaml.list [] ∨ v = Yaml.dict []) :
    load_request_sets [⟨fileName, some v⟩] =
      Except.ok [{ name := stem fileName, method := "GET", url := "", headers := [],
                   body := none, description := "", «variables» := [],
                   file_path := some fileName }] := by
  rcases h with rfl | rfl | rfl | rfl <;> rfl

/-- Witness for C9 at a concrete empty file `empty.yaml`. -/
theorem load_empty_defaults_witness :
    load_request_sets [⟨"empty.yaml", some Yaml.null⟩] =
      Except.ok [{ name := "empty", method := "GET", url := "", headers := [],
                   body := none, description := "", «variables» := [],
                   file_path := some "empty.yaml" }] := by
  have h := load_empty_defaults "empty.yaml" Yaml.null (Or.inl rfl)
  exact h.trans (by rfl)

lemma charsLe_iff (a : List Char) : ∀ b : List Char, charsLe a b = true ↔ a ≤ b := by
  induction a with
  | nil =>
    intro b
    refine iff_of_true rfl ?_
    rw [← not_lt]
    intro hlex
    cases hlex
  | cons a as ih =>
    intro b
    cases b with
    | nil =>
      refine iff_of_false (by simp [charsLe]) ?_
      rw [← not_lt]
      intro hn
      exact hn List.Lex.nil
    | cons b bs =>
      rw [charsLe]
      by_cases h1 : a < b
      · refine iff_of_true (by simp [h1]) ?_
        rw [← not_lt]
        intro hlex
        cases hlex with
        | cons h => exact lt_irrefl a h1
        | rel h => exact lt_asymm h1 h
      · by_cases h2 : b < a
        · refine iff_of_false (by simp [h1, h2]) ?_
          rw [← not_lt]
          intro hn
          exact hn (List.Lex.rel h2)
        · have hab : a = b := le_antisymm (not_lt.mp h2) (not_lt.mp h1)
          subst hab
          simp only [h1, if_false, if_neg (lt_irrefl a)]
          rw [ih bs, ← not_lt, ← not_lt]
          constructor
          · intro h hlex
            cases hlex with
            | cons h' => exact h h'
            | rel h' => exact lt_irrefl a h'
          · intro h hlex
            exact h (List.Lex.cons hlex)

lemma strLe_iff (a b : String) : strLe a b = true ↔ a ≤ b := by
  rw [strLe, charsLe_iff, String.le_iff_toList_le]
  exact Iff.rfl

lemma mem_insertFile {x f : YamlFile} {l : List YamlFile} :
    x ∈ insertFile f l ↔ x = f ∨ x ∈ l := by
  induction l with
  | nil => simp [insertFile]
  | cons g t ih =>
    rw [insertFile]
    split
    · simp only [List.mem_cons, ih]
      tauto
    · exact List.mem_cons

lemma mem_sortFiles {x : YamlFile} {l : List YamlFile} :
    x ∈ sortFiles l ↔ x ∈ l := by
  induction l with
  | nil => simp [sortFiles]
  | cons g t ih =>
    show x ∈ insertFile g (sortFiles t) ↔ _
    rw [mem_insertFile, ih, List.mem_cons]

lemma pairwise_insertFile {f : YamlFile} {l : List YamlFile}
    (h : List.Pairwise (fun a b => a.name ≤ b.name) l) :
    List.Pairwise (fun a b => a.name ≤ b.name) (insertFile f l) := by
  induction l with
  | nil => simp [insertFile]
  | cons g t ih =>
    rw [List.pairwise_cons] at h
    obtain ⟨hg, ht⟩ := h
    rw [insertFile]
    split
    · next hle =>
      rw [List.pairwise_cons]
      refine ⟨fun x hx => ?_, ih ht⟩
      rcases mem_insertFile.mp hx with rfl | hx
      · exact (strLe_iff _ _).mp hle
      · exact hg x hx
    · next hle =>
      have hfg : f.name ≤ g.name :=
        le_of_not_le fun hc => hle ((strLe_iff _ _).mpr hc)
      rw [List.pairwise_cons]
      refine ⟨fun x hx => ?_, List.pairwise_cons.mpr ⟨hg, ht⟩⟩
      rcases List.mem_cons.mp hx with rfl | hx
      · exact hfg
      · exact le_trans hfg (hg x hx)

lemma sortFiles_pairwise (l : List YamlFile) :
    List.Pairwise (fun a b => a.name ≤ b.name) (sortFiles l) := by
  induction l with
  | nil => exact List.Pairwise.nil
  | cons g t ih => exact pairwise_insertFile ih

lemma loadSorted_sources {l : List YamlFile} {rs : List RequestSet}
    (h : loadSorted l = Except.ok rs) :
    ∀ r ∈ rs, ∃ f ∈ l, ∃ es, read_yaml f.doc = Except.ok (Yaml.dict es) ∧
      r = parse_request_set es f.name := by
  induction l generalizing rs with
  | nil =>
    rw [loadSorted] at h
    cases h
    intro r hr
    cases hr
  | cons f t ih =>
    rw [loadSorted] at h
    intro r hr
    rcases hy : read_yaml f.doc with _ | v
    · rw [hy] at h
      cases h
    · rcases hv : v with _ | _ | _ | _ | _ | es <;> rw [hy, hv] at h
      case dict =>
        rcases ht : loadSorted t with _ | rs'
        · rw [ht] at h
          cases h
        · rw [ht] at h
          cases h
          rcases List.mem_cons.mp hr with rfl | hr'
          · exact ⟨f, List.mem_cons_self f t, es, hv ▸ hy, rfl⟩
          · obtain ⟨g, hg, es', h1, h2⟩ := ih ht r hr'
            exact ⟨g, List.mem_cons_of_mem f hg, es', h1, h2⟩
      all_goals
        obtain ⟨g, hg, es', h1, h2⟩ := ih h r hr
        exact ⟨g, List.mem_cons_of_mem f hg, es', h1, h2⟩

lemma loadSorted_pairwise {l : List YamlFile} {rs : List RequestSet}
    (hs : List.Pairwise (fun a b => a.name ≤ b.name) l)
    (h : loadSorted l = Except.ok rs) : List.Pairwise nameLe rs := by
  induction l generalizing rs with
  | nil =>
    rw [loadSorted] at h
    cases h
    exact List.Pairwise.nil
  | cons f t ih =>
    rw [List.pairwise_cons] at hs
    obtain ⟨hf, ht⟩ := hs
    rw [loadSorted] at h
    rcases hy : read_yaml f.doc with _ | v
    · rw [hy] at h
      cases h
    · rcases hv : v with _ | _ | _ | _ | _ | es <;> rw [hy, hv] at h
      case dict =>
        rcases hl : loadSorted t with _ | rs'
        · rw [hl] at h
          cases h
        · rw [hl] at h
          cases h
          rw [List.pairwise_cons]
          refine ⟨fun r hr => ?_, ih ht hl⟩
          obtain ⟨g, hg, es', _, h2⟩ := loadSorted_sources hl r hr
          intro x y hx hy2
          have hx' : x = f.name := by
            simpa [parse_request_set] using hx.symm
          have hy' : y = g.name := by
            rw [h2] at hy2
            simpa [parse_request_set] using hy2.symm
          exact hx' ▸ hy' ▸ hf g hg
      all_goals exact ih ht h

/-- C10: when loading succeeds, every returned definition originates from a
file of the directory — it is the parse of that file's mapping and carries
`file_path = some` of that file's name — and the returned list is in
ascending lexicographic order of those file paths.  The embedding carries
no modification times or display names, so the order depends on nothing
else. -/
theorem load_request_sets_ordered (files : List YamlFile) (rs : List RequestSet)
    (h : load_request_sets files = Except.ok rs) :
    (∀ r ∈ rs, ∃ f ∈ files, ∃ es, read_yaml f.doc = Except.ok (Yaml.dict es) ∧
        r = parse_request_set es f.name ∧ r.file_path = some f.name) ∧
    List.Pairwise nameLe rs := by
  rw [load_request_sets] at h
  constructor
  · intro r hr
    obtain ⟨f, hf, es, h1, h2⟩ := loadSorted_sources h r hr
    exact ⟨f, mem_sortFiles.mp hf, es, h1, h2, by rw [h2]; rfl⟩
  · exact loadSorted_pairwise (sortFiles_pairwise files) h

/-- Witness for C10 at a concrete two-file directory given in reverse
order: the load returns the parses in ascending file-name order, and both
parts of the ordering theorem hold for it. -/
theorem load_request_sets_ordered_witness :
    load_request_sets [⟨"b.yaml", some (Yaml.dict [])⟩, ⟨"a.yaml", some (Yaml.dict [])⟩] =
      Except.ok [parse_request_set [] "a.yaml", parse_request_set [] "b.yaml"] ∧
    List.Pairwise nameLe [parse_request_set [] "a.yaml", parse_request_set [] "b.yaml"] := by
  have he : load_request_sets
      [⟨"b.yaml", some (Yaml.dict [])⟩, ⟨"a.yaml", some (Yaml.dict [])⟩] =
      Except.ok [parse_request_set [] "a.yaml", parse_request_set [] "b.yaml"] := by
    rw [load_request_sets]
    rw [show sortFiles [⟨"b.yaml", some (Yaml.dict [])⟩, ⟨"a.yaml", some (Yaml.dict [])⟩] =
      [⟨"a.yaml", some (Yaml.dict [])⟩, ⟨"b.yaml", some (Yaml.dict [])⟩] from rfl]
    rfl
  exact ⟨he, (load_request_sets_ordered _ _ he).2⟩

lemma loadSorted_no_error {l : List YamlFile} (h : ∀ f ∈ l, f.doc ≠ none) :
    loadSorted l = Except.ok (l.filterMap parseIfDict) := by
  induction l with
  | nil => rfl
  | cons f t ih =>
    rcases hdoc : f.doc with _ | v
    · exact absurd hdoc (h f (List.mem_cons_self f t))
    · have ht := ih fun g hg => h g (List.mem_cons_of_mem f hg)
      rw [loadSorted, hdoc]
      rw [List.filterMap_cons]
      rcases hv : (if pyTruthy v then v else Yaml.dict []) with _ | _ | _ | _ | _ | es
      all_goals
        rw [show read_yaml (some v) = Except.ok (if pyTruthy v then v else Yaml.dict []) from rfl,
          hv, show parseIfDict f = _ from by rw [parseIfDict, hdoc,
            show read_yaml (some v) = Except.ok (if pyTruthy v then v else Yaml.dict []) from rfl,
            hv]]
      case dict => rw [ht]; rfl
      all_goals exact ht

lemma loadSorted_error {l : List YamlFile} {f : YamlFile}
    (hf : f ∈ l) (hdoc : f.doc = none) : loadSorted l = Except.error () := by
  induction l with
  | nil => cases hf
  | cons g t ih =>
    rcases List.mem_cons.mp hf with rfl | hmem
    · rw [loadSorted, hdoc]
      rfl
    · have ht := ih hmem
      rw [loadSorted]
      rcases hg : read_yaml g.doc with _ | v
      · rfl
      · rcases v with _ | _ | _ | _ | _ | es
        case dict => rw [ht]; rfl
        all_goals exact ht

/-- Counterexample to C1 as stated: a directory holding one file whose
content fails to parse as YAML (`a.yaml`, modelled by `doc = none` since
`yaml.safe_load` raises) and one well-formed file (`b.yaml`): the load
raises instead of returning the single well-formed definition — the
malformed file aborts the whole load. -/
theorem load_malformed_aborts_cex :
    load_request_sets
        [⟨"a.yaml", none⟩, ⟨"b.yaml", some (Yaml.dict [("name", Yaml.str "B")])⟩] =
      Except.error () ∧
    load_request_sets
        [⟨"a.yaml", none⟩, ⟨"b.yaml", some (Yaml.dict [("name", Yaml.str "B")])⟩] ≠
      Except.ok [parse_request_set [("name", Yaml.str "B")] "b.yaml"] := by
  refine ⟨rfl, ?_⟩
  intro h
  rw [show load_request_sets
      [⟨"a.yaml", none⟩, ⟨"b.yaml", some (Yaml.dict [("name", Yaml.str "B")])⟩] =
      Except.error () from rfl] at h
  cases h

/-- C1 amended: only a file whose YAML parses to a non-mapping value is
skipped with the load continuing (the load then returns the parses of all
mapping files, in directory order); a file whose content fails YAML parsing
raises and aborts the whole load. -/
theorem load_skip_vs_abort (files : List YamlFile) :
    ((∀ f ∈ files, f.doc ≠ none) →
        load_request_sets files = Except.ok ((sortFiles files).filterMap parseIfDict)) ∧
    (∀ f ∈ files, f.doc = none → load_request_sets files = Except.error ()) := by
  constructor
  · intro h
    rw [load_request_sets]
    exact loadSorted_no_error fun f hf => h f (mem_sortFiles.mp hf)
  · intro f hf hdoc
    rw [load_request_sets]
    exact loadSorted_error (mem_sortFiles.mpr hf) hdoc

/-- Witness for the amended C1 at concrete directories: a non-mapping file
(`a.yaml` holding the scalar `oops`) is skipped and the load returns the
one mapping file's parse, while a directory containing an unparsable file
makes the load raise. -/
theorem load_skip_vs_abort_witness :
    load_request_sets
        [⟨"b.yaml", some (Yaml.dict [])⟩, ⟨"a.yaml", some (Yaml.str "oops")⟩] =
      Except.ok [parse_request_set [] "b.yaml"] ∧
    load_request_sets [⟨"c.yaml", none⟩] = Except.error () := by
  constructor
  · have h := (load_skip_vs_abort
        [⟨"b.yaml", some (Yaml.dict [])⟩, ⟨"a.yaml", some (Yaml.str "oops")⟩]).1
      (by
        intro f hf
        rcases List.mem_cons.mp hf with rfl | hf2
        · simp
        · rcases List.mem_cons.mp hf2 with rfl | hf3
          · simp
          · cases hf3)
    exact h.trans rfl
  · exact (load_skip_vs_abort [⟨"c.yaml", none⟩]).2 ⟨"c.yaml", none⟩
      (List.mem_cons_self _ _) rfl

lemma substitute_cons_ne (values : List String) (c : Char) (rest : List Char)
    (h : c ≠ '$') :
    substitute_variables values (c :: rest) = c :: substitute_variables values rest := by
  rw [substitute_variables, if_neg h]

lemma substitute_no_dollar (values : List String) (cs xs : List Char)
    (h : '$' ∉ cs) :
    substitute_variables values (cs ++ xs) = cs ++ substitute_variables values xs := by
  induction cs with
  | nil => rfl
  | cons c cs' ih =>
    rw [List.mem_cons, not_or] at h
    rw [List.cons_append, substitute_cons_ne values c _ (fun he => h.1 he.symm), ih h.2]
    rfl

lemma takeWhile_digits_append (ds xs : List Char) (h : ∀ c ∈ ds, c.isDigit)
    (h2 : ∀ c, xs.head? = some c → c.isDigit = false) :
    (ds ++ xs).takeWhile Char.isDigit = ds ∧ (ds ++ xs).dropWhile Char.isDigit = xs := by
  induction ds with
  | nil =>
    cases xs with
    | nil => exact ⟨rfl, rfl⟩
    | cons x xs' =>
      have hx := h2 x rfl
      rw [List.nil_append, List.takeWhile_cons, List.dropWhile_cons, hx]
      exact ⟨rfl, rfl⟩
  | cons d ds' ih =>
    have hd := h d (List.mem_cons_self d ds')
    obtain ⟨ih1, ih2⟩ := ih (fun c hc => h c (List.mem_cons_of_mem d hc))
    rw [List.cons_append, List.takeWhile_cons, List.dropWhile_cons, hd]
    rw [ih1, ih2]
    exact ⟨rfl, rfl⟩

lemma substitute_var_token (values : List String) (n : Nat) (xs : List Char)
    (_hn : 1 ≤ n) (hxs : ∀ c, xs.head? = some c → c.isDigit = false) :
    substitute_variables values ('$' :: (natChars n ++ xs)) =
      (if 1 ≤ n ∧ n ≤ values.length then (values.getD (n - 1) "").data
       else '$' :: natChars n) ++ substitute_variables values xs := by
  obtain ⟨ht, hd⟩ := takeWhile_digits_append (natChars n) xs (natChars_all_digits n) hxs
  rw [substitute_variables, if_pos rfl]
  simp only [ht, hd]
  rw [if_neg (natChars_ne_nil n), digitsVal_natChars]
  by_cases hc : 1 ≤ n ∧ n ≤ values.length
  · rw [if_pos hc, if_pos hc]
  · rw [if_neg hc, if_neg hc]
    simp

lemma flatten_head_not_digit (n : Nat) (t : List TPart)
    (hall : t.all wfPart = true)
    (hnm : ∀ b, t.head? = some b → noMerge (TPart.var n) b = true) :
    ∀ c, (flattenTemplate t).head? = some c → c.isDigit = false := by
  cases t with
  | nil => intro c hc; cases hc
  | cons b t' =>
    intro c hc
    have hb := hnm b rfl
    have hwb : wfPart b = true := by
      rw [List.all_cons] at hall
      exact (Bool.and_eq_true_iff.mp hall).1
    cases b with
    | lit cs =>
      cases cs with
      | nil => exact absurd hwb (by simp [wfPart])
      | cons c0 cs' =>
        have : c = c0 := by
          rw [show flattenTemplate (TPart.lit (c0 :: cs') :: t') =
            c0 :: (cs' ++ flattenTemplate t') from rfl] at hc
          exact (Option.some.inj hc).symm
        subst this
        have := hb
        rw [noMerge, TPart.startsDigit] at this
        simpa using this
    | var m =>
      have : c = '$' := by
        rw [show flattenTemplate (TPart.var m :: t') =
          '$' :: (natChars m ++ flattenTemplate t') from rfl] at hc
        exact (Option.some.inj hc).symm
      subst this
      decide

lemma wfTemplate_tail {p : TPart} {t : List TPart}
    (h : wfTemplate (p :: t) = true) : wfTemplate t = true := by
  rw [wfTemplate, Bool.and_eq_true_iff] at h ⊢
  obtain ⟨ha, hc⟩ := h
  rw [List.all_cons, Bool.and_eq_true_iff] at ha
  refine ⟨ha.2, ?_⟩
  cases t with
  | nil => rfl
  | cons b t' =>
    rw [show chainNoMerge (p :: b :: t') = (noMerge p b && chainNoMerge (b :: t')) from rfl,
      Bool.and_eq_true_iff] at hc
    exact hc.2

/-- C8: the substitution engine refines the §4.2 contract: on any body that
is literal text (never containing `$`) interleaved with placeholder tokens
`$N` (no token directly followed by a digit), every token with an in-range
1-based index is replaced by the corresponding user value, every other
token is left untouched, and literal text passes through unchanged. -/
theorem substitution_refines_spec (values : List String) (t : List TPart)
    (h : wfTemplate t = true) :
    substitute_variables values (flattenTemplate t) = renderTemplate values t := by
  induction t with
  | nil =>
    rw [show flattenTemplate [] = [] from rfl, substitute_variables]
    rfl
  | cons p t' ih =>
    have htail := wfTemplate_tail h
    have hallt : t'.all wfPart = true := by
      rw [wfTemplate, Bool.and_eq_true_iff] at htail
      exact htail.1
    have hwp : wfPart p = true := by
      rw [wfTemplate, Bool.and_eq_true_iff, List.all_cons, Bool.and_eq_true_iff] at h
      exact h.1.1
    cases p with
    | lit cs =>
      have hnd : '$' ∉ cs := by
        rw [wfPart, Bool.and_eq_true_iff] at hwp
        have := hwp.2
        simpa using this
      rw [show flattenTemplate (TPart.lit cs :: t') = cs ++ flattenTemplate t' from rfl,
        substitute_no_dollar values cs _ hnd, ih htail]
      rfl
    | var n =>
      have hn : 1 ≤ n := by
        rw [wfPart] at hwp
        exact of_decide_eq_true hwp
      have hnm : ∀ b, t'.head? = some b → noMerge (TPart.var n) b = true := by
        intro b hb
        rw [wfTemplate, Bool.and_eq_true_iff] at h
        have hc := h.2
        cases t' with
        | nil => cases hb
        | cons b0 t'' =>
          have hb' : b = b0 := (Option.some.inj hb).symm
          subst hb'
          rw [show chainNoMerge (TPart.var n :: b :: t'') =
            (noMerge (TPart.var n) b && chainNoMerge (b :: t'')) from rfl,
            Bool.and_eq_true_iff] at hc
          exact hc.1
      rw [show flattenTemplate (TPart.var n :: t') =
        '$' :: (natChars n ++ flattenTemplate t') from rfl,
        substitute_var_token values n _ hn (flatten_head_not_digit n t' hallt hnm),
        ih htail]
      rfl

/-- Witness for C8 at the spec's two examples: `"$1-$2"` with values
`["a","b"]` substitutes to `"a-b"`, and with `["a"]` to `"a-$2"` (the
unsupplied `$2` left untouched). -/
theorem substitution_refines_spec_witness :
    substitute_variables ["a", "b"] "$1-$2".data = "a-b".data ∧
    substitute_variables ["a"] "$1-$2".data = "a-$2".data := by
  have h1 : natChars 1 = ['1'] := by
    rw [natChars]
    decide
  have h2 : natChars 2 = ['2'] := by
    rw [natChars]
    decide
  have hf : flattenTemplate [TPart.var 1, TPart.lit ['-'], TPart.var 2] = "$1-$2".data := by
    rw [show flattenTemplate [TPart.var 1, TPart.lit ['-'], TPart.var 2] =
      ('$' :: natChars 1) ++ ('-' :: ('$' :: natChars 2) ++ []) from rfl, h1, h2]
    rfl
  have hwf : wfTemplate [TPart.var 1, TPart.lit ['-'], TPart.var 2] = true := by decide
  constructor
  · have ha := substitution_refines_spec ["a", "b"]
      [TPart.var 1, TPart.lit ['-'], TPart.var 2] hwf
    rw [hf] at ha
    rw [ha, show renderTemplate ["a", "b"] [TPart.var 1, TPart.lit ['-'], TPart.var 2] =
      "a".data ++ ('-' :: "b".data ++ []) from by
        rw [renderTemplate]
        simp]
    rfl
  · have ha := substitution_refines_spec ["a"]
      [TPart.var 1, TPart.lit ['-'], TPart.var 2] hwf
    rw [hf] at ha
    rw [ha, show renderTemplate ["a"] [TPart.var 1, TPart.lit ['-'], TPart.var 2] =
      "a".data ++ ('-' :: ('$' :: natChars 2) ++ []) from by
        rw [renderTemplate]
        simp, h2]
    rfl

lemma intChars_ne_nil (n : Int) : intChars n ≠ [] := by
  rw [intChars]
  split
  · simp
  · exact natChars_ne_nil _

lemma json_dumps_ne_nil (j : Json) : json_dumps j ≠ [] := by
  cases j with
  | null => simp [json_dumps, jdumpLevel]
  | bool b => cases b <;> simp [json_dumps, jdumpLevel]
  | num n =>
    have h := intChars_ne_nil n
    simpa [json_dumps, jdumpLevel] using h
  | str s => simp [json_dumps, jdumpLevel]
  | arr items => cases items <;> simp [json_dumps, jdumpLevel]
  | obj entries => cases entries <;> simp [json_dumps, jdumpLevel]

lemma jvalue_brace (fuel : Nat) (cs : List Char) :
    jvalue (fuel + 1) ('\x7b' :: cs) = jobject fuel cs := by
  rw [jvalue, List.dropWhile_cons]
  rw [show jsonWs '\x7b' = false from rfl]
  rfl

lemma jobject_stuck_x (fuel : Nat) :
    jobject fuel (List.replicate 4000 'x') = none := by
  cases fuel with
  | zero => rfl
  | succ m =>
    rw [show (4000 : Nat) = 3999 + 1 from rfl, List.replicate_succ, jobject,
      List.dropWhile_cons, show jsonWs 'x' = false from rfl]
    rfl

lemma json_loads_brace_x :
    json_loads ('\x7b' :: List.replicate 4000 'x') = none := by
  rw [json_loads, jvalue_brace, jobject_stuck_x]

lemma pyStrip_brace_x :
    pyStrip ('\x7b' :: List.replicate 4000 'x') = '\x7b' :: List.replicate 4000 'x' := by
  rw [pyStrip, List.dropWhile_cons, show pyIsSpace '\x7b' = false from rfl]
  rw [if_neg (by simp), List.reverse_cons, List.reverse_replicate]
  rw [show (4000 : Nat) = 3999 + 1 from rfl, List.replicate_succ, List.cons_append,
    List.dropWhile_cons, show pyIsSpace 'x' = false from rfl]
  rw [if_neg (by simp), ← List.cons_append, ← List.replicate_succ,
    List.reverse_append, List.reverse_replicate]
  rfl

lemma jsonEligible_brace_x :
    jsonEligible { body := '\x7b' :: List.replicate 4000 'x' } = true := by
  rw [jsonEligible]
  rw [show Response.body { body := '\x7b' :: List.replicate 4000 'x' } =
    '\x7b' :: List.replicate 4000 'x' from rfl, pyStrip_brace_x]
  rw [show (match '\x7b' :: List.replicate 4000 'x' with
    | c :: _ => decide (c = '\x7b') || decide (c = '[')
    | [] => false) = true from rfl]
  rw [Bool.or_true]

/-- Counterexample to C4 as stated: a completed response whose 4001-char
body starts with an opening brace but is not valid JSON (`json.loads`
raises) does NOT render as "the raw body unmodified" — truncation at 4000
characters still applies after the fallback. -/
theorem format_json_fallback_cex :
    json_loads ('\x7b' :: List.replicate 4000 'x') = none ∧
    jsonEligible { body := '\x7b' :: List.replicate 4000 'x' } = true ∧
    format_response_body { body := '\x7b' :: List.replicate 4000 'x' } =
      ('\x7b' :: List.replicate 3999 'x') ++ "\n... (truncated)".data ∧
    format_response_body { body := '\x7b' :: List.replicate 4000 'x' } ≠
      '\x7b' :: List.replicate 4000 'x' := by
  have hne : ('\x7b' :: List.replicate 4000 'x') ≠ ([] : List Char) :=
    List.cons_ne_nil _ _
  have hstage : jsonStage { body := '\x7b' :: List.replicate 4000 'x' } =
      '\x7b' :: List.replicate 4000 'x' := by
    rw [jsonStage]
    rw [if_pos hne, jsonEligible_brace_x, if_pos rfl, json_loads_brace_x]
  have hdisp : displayedBody { body := '\x7b' :: List.replicate 4000 'x' } =
      '\x7b' :: List.replicate 4000 'x' := by
    rw [displayedBody]
    simp only [hstage]
    rw [if_neg hne]
  have hlen : ('\x7b' :: List.replicate 4000 'x').length = 4001 := by
    rw [List.length_cons, List.length_replicate]
  have hfmt : format_response_body { body := '\x7b' :: List.replicate 4000 'x' } =
      ('\x7b' :: List.replicate 3999 'x') ++ "\n... (truncated)".data := by
    rw [format_response_body, hdisp, truncateDisplayed, if_pos (by rw [hlen]; omega)]
    rw [show (4000 : Nat) = 3999 + 1 from rfl, List.take_succ_cons, List.take_replicate]
    norm_num
  refine ⟨json_loads_brace_x, jsonEligible_brace_x, hfmt, ?_⟩
  rw [hfmt]
  intro h
  have := congrArg List.length h
  simp only [List.length_append, List.length_cons, List.length_replicate,
    show "\n... (truncated)".data.length = 16 from by decide] at this
  omega

/-- C4 amended: for a response with a truthy body that is JSON-eligible
(headers give a JSON content type, or the stripped body opens with a brace
or bracket), a successful `json.loads` renders the 2-space-indented
`json.dumps` of the parse and a failed `json.loads` leaves the body
unchanged — in both cases followed by the 4000-character truncation rule,
so the raw body passes through entirely unmodified whenever it is at most
4000 characters long. -/
theorem format_json_pretty (r : Response)
    (hbody : r.body ≠ [])
    (helig : jsonEligible r = true) :
    (∀ j, json_loads r.body = some j →
        format_response_body r = truncateDisplayed (json_dumps j)) ∧
    (json_loads r.body = none →
        format_response_body r = truncateDisplayed r.body) ∧
    (json_loads r.body = none → r.body.length ≤ 4000 →
        format_response_body r = r.body) := by
  have hsome : ∀ j, json_loads r.body = some j → jsonStage r = json_dumps j := by
    intro j hj
    rw [jsonStage, if_pos hbody, helig, if_pos rfl, hj]
  have hnone : json_loads r.body = none → jsonStage r = r.body := by
    intro hj
    rw [jsonStage, if_pos hbody, helig, if_pos rfl, hj]
  refine ⟨fun j hj => ?_, fun hj => ?_, fun hj hlen => ?_⟩
  · rw [format_response_body, displayedBody]
    simp only [hsome j hj]
    rw [if_neg (json_dumps_ne_nil j)]
  · rw [format_response_body, displayedBody]
    simp only [hnone hj]
    rw [if_neg hbody]
  · rw [format_response_body, displayedBody]
    simp only [hnone hj]
    rw [if_neg hbody, truncateDisplayed, if_neg (by omega)]

/-- Witness for the amended C4: the spec's own example — body `'\x7b"a":1\x7d'`
with header `Content-Type: application/json` — renders as the 2-space
pretty-printed JSON, and a short non-JSON body starting with `[` passes
through unmodified. -/
theorem format_json_pretty_witness :
    format_response_body
      { body := "\x7b\"a\":1\x7d".data,
        headers := some [("Content-Type", "application/json")] } =
      "\x7b\n  \"a\": 1\n\x7d".data ∧
    format_response_body { body := "[oops".data } = "[oops".data := by
  constructor
  · have h := (format_json_pretty
      { body := "\x7b\"a\":1\x7d".data,
        headers := some [("Content-Type", "application/json")] }
      (by decide) (by decide)).1 (Json.obj [("a".data, Json.num 1)]) rfl
    rw [h, truncateDisplayed]
    rw [show json_dumps (Json.obj [("a".data, Json.num 1)]) = "\x7b\n  \"a\": 1\n\x7d".data
      from by
        simp [json_dumps, jdumpLevel, jdumpMembers, jpad, List.intercalate]
        decide]
    rfl
  · exact (format_json_pretty { body := "[oops".data } (by decide) (by decide)).2.2
      rfl (by decide)

end Tcurl
